import Mathlib

/-!
Verification of the `OperationBuilder` construction layer of the `abstraps` IR
(`src/ir/builder.rs`), as a shallow embedding in Lean 4.

The builder itself (`src/ir/builder.rs`) is embedded directly from the source.
The data-model types it manipulates (`Var`, `BasicBlock`, `Region`,
`Operation`, the `Intrinsic` and `Attribute` capability interfaces) live in
`src/ir/core.rs`, which is not part of the provided sources; those are
modelled from the specification's data-model and minimal-contract sections.

Machine-integer convention: Rust's `usize` is modelled as `Nat`.  Subtraction
`x - 1` in the source is checked: Rust panics on underflow in debug builds
(and in release the wrapped value immediately produces an out-of-bounds
index), so `x = 0` is modelled as the `panicked` outcome.  Vector/slice
indexing out of bounds likewise panics and is modelled as `panicked`.
-/

/-- Modelled from the spec: `Var` (src/ir/core.rs, not in the provided
sources) is an opaque handle to a produced value; identity only. -/
structure Var where
  id : Nat
deriving DecidableEq

/-- Modelled from the spec: the `Intrinsic` capability interface
(src/ir/core.rs, not in the provided sources) reports a stable name and an
open set of semantic trait tags, both opaque to the core. -/
structure Intrinsic where
  name : String
  traits : List String
deriving DecidableEq

/-- Modelled from the spec: the `Attribute` capability interface
(src/ir/core.rs, not in the provided sources) carries a
structured-serializable payload, opaque to the core. -/
structure Attribute where
  payload : String
deriving DecidableEq

mutual

/-- Modelled from the spec: an `Operation` (src/ir/core.rs, not in the
provided sources) is an `Intrinsic` handle, ordered operand `Var`s, a
name-to-`Attribute` mapping, ordered nested `Region`s and ordered successor
`BasicBlock`s; immutable once built. -/
inductive Operation : Type where
  | mk : Intrinsic → List Var → List (String × Attribute) → List Region →
      List BasicBlock → Operation

/-- Modelled from the spec: a `Region` (src/ir/core.rs, not in the provided
sources) owns an ordered, append-only list of `BasicBlock`s; it can mint a
fresh argument `Var` for a block by index, so it carries a mint counter. -/
inductive Region : Type where
  | mk : List BasicBlock → Nat → Region

/-- Modelled from the spec: a `BasicBlock` (src/ir/core.rs, not in the
provided sources) owns an ordered argument-`Var` list and an ordered
`Operation` list; appending an operation mints and returns that operation's
primary result `Var`, so it carries a mint counter. -/
inductive BasicBlock : Type where
  | mk : List Var → List Operation → Nat → BasicBlock

end

def Region.blocks : Region → List BasicBlock
  | .mk bs _ => bs

def Region.counter : Region → Nat
  | .mk _ c => c

def BasicBlock.args : BasicBlock → List Var
  | .mk a _ _ => a

def BasicBlock.ops : BasicBlock → List Operation
  | .mk _ o _ => o

def BasicBlock.counter : BasicBlock → Nat
  | .mk _ _ c => c

def Operation.intrinsic : Operation → Intrinsic
  | .mk i _ _ _ _ => i

def Operation.operands : Operation → List Var
  | .mk _ os _ _ _ => os

def Operation.attrs : Operation → List (String × Attribute)
  | .mk _ _ a _ _ => a

def Operation.regions : Operation → List Region
  | .mk _ _ _ rs _ => rs

def Operation.successors : Operation → List BasicBlock
  | .mk _ _ _ _ ss => ss

/-- An empty region (spec: regions are "created empty"). -/
def Region.empty : Region := .mk [] 0

/-- An empty basic block. -/
def BasicBlock.empty : BasicBlock := .mk [] [] 0

/-- Outcome of a builder call: a normal return, an `Err` return through
`anyhow::Result`, or a Rust panic (integer underflow in a debug build, or an
out-of-bounds `Vec` index). -/
inductive BRes (α : Type) : Type where
  | ok : α → BRes α
  | err : BRes α
  | panicked : BRes α

/-- The `BuilderError` enum exactly as declared in `src/ir/builder.rs`
(lines 19-23): its only variants are `BuilderCreationFailure` and
`Caseless`. -/
inductive BuilderError : Type where
  | BuilderCreationFailure : BuilderError
  | Caseless : BuilderError
deriving DecidableEq

/-- Modelled from the spec: `Region::push_block` appends a block; the spec
documents no failure condition for appending, so the `Result` it returns in
the source is always `Ok`. -/
def Region.push_block (r : Region) (b : BasicBlock) : Region :=
  .mk (r.blocks ++ [b]) r.counter

/-- Modelled from the spec: `Region::push_arg i` mints a fresh argument `Var`
for the block at index `i`, appending it to that block's argument list; it
fails (returns `Err`) if the index is out of range. -/
def Region.push_arg (r : Region) (i : Nat) : BRes (Var × Region) :=
  if h : i < r.blocks.length then
    let b := r.blocks.get ⟨i, h⟩
    let v := Var.mk r.counter
    .ok (v, .mk (r.blocks.set i (.mk (b.args ++ [v]) b.ops b.counter))
          (r.counter + 1))
  else .err

/-- Modelled from the spec: `Region::push_op i op` appends `op` to the block
at index `i`; the block mints and returns that operation's primary result
`Var`.  The source calls it without a `Result` (`builder.rs` line 135), so an
out-of-range index is an indexing panic. -/
def Region.push_op (r : Region) (i : Nat) (op : Operation) :
    BRes (Var × Region) :=
  if h : i < r.blocks.length then
    let b := r.blocks.get ⟨i, h⟩
    let v := Var.mk b.counter
    .ok (v, .mk (r.blocks.set i (.mk b.args (b.ops ++ [op]) (b.counter + 1)))
          r.counter)
  else .panicked

/-- The builder state of `src/ir/builder.rs` lines 25-34, field for field
(the `HashMap` of attributes is modelled as an association list with
overwrite-on-insert, matching the map's observable get/insert behavior). -/
structure OperationBuilder where
  latest : List Var
  cursor : Nat × Nat
  intrinsic : Intrinsic
  operands : List Var
  attrs : List (String × Attribute)
  regions : List Region
  successors : List BasicBlock

namespace OperationBuilder

/-- `OperationBuilder::default` (builder.rs lines 37-47). -/
def default (intr : Intrinsic) : OperationBuilder :=
  { latest := []
    cursor := (0, 0)
    intrinsic := intr
    operands := []
    attrs := []
    regions := []
    successors := [] }

/-- `get_latest` (builder.rs lines 49-51). -/
def get_latest (b : OperationBuilder) : List Var :=
  b.latest

/-- `get_intrinsic` (builder.rs lines 53-55). -/
def get_intrinsic (b : OperationBuilder) : Intrinsic :=
  b.intrinsic

/-- `push_operand` (builder.rs lines 57-59). -/
def push_operand (b : OperationBuilder) (arg : Var) : OperationBuilder :=
  { b with operands := b.operands ++ [arg] }

/-- `set_operands` (builder.rs lines 61-63). -/
def set_operands (b : OperationBuilder) (args : List Var) : OperationBuilder :=
  { b with operands := args }

/-- `get_operands` (builder.rs lines 65-67): note the `arg` parameter is
never used by the body. -/
def get_operands (b : OperationBuilder) (arg : Var) : List Var :=
  b.operands

/-- `set_cursor` (builder.rs lines 69-71). -/
def set_cursor (b : OperationBuilder) (reg blk : Nat) : OperationBuilder :=
  { b with cursor := (reg, blk) }

/-- `get_cursor` (builder.rs lines 73-75). -/
def get_cursor (b : OperationBuilder) : Nat × Nat :=
  b.cursor

/-- `insert_attr` as an operation on the association list modelling the
attribute `HashMap`: overwrite the binding of `k` if present, else add it. -/
def insertA (l : List (String × Attribute)) (k : String) (a : Attribute) :
    List (String × Attribute) :=
  match l with
  | [] => [(k, a)]
  | (k2, a2) :: t => if k2 = k then (k, a) :: t else (k2, a2) :: insertA t k a

/-- `insert_attr` (builder.rs lines 91-93). -/
def insert_attr (b : OperationBuilder) (k : String) (attr : Attribute) :
    OperationBuilder :=
  { b with attrs := insertA b.attrs k attr }

/-- `get_attrs` (builder.rs lines 95-97). -/
def get_attrs (b : OperationBuilder) : List (String × Attribute) :=
  b.attrs

/-- `get_attr` (builder.rs lines 99-101): `HashMap::get`, i.e. association
lookup; an absent key yields `none`, not an error. -/
def get_attr (b : OperationBuilder) (key : String) : Option Attribute :=
  b.attrs.lookup key

/-- `push_region` (builder.rs lines 103-106): append the region, bump the
region half of the cursor, leave the block half as it was. -/
def push_region (b : OperationBuilder) (r : Region) : OperationBuilder :=
  { b with regions := b.regions ++ [r]
           cursor := (b.cursor.fst + 1, b.cursor.snd) }

/-- `get_regions` (builder.rs lines 113-115). -/
def get_regions (b : OperationBuilder) : List Region :=
  b.regions

/-- `get_region` (builder.rs lines 108-111): `self.regions[self.cursor.0 - 1]`.
With `cursor.0 = 0` the subtraction underflows (panic); an index past the end
of `regions` is an indexing panic. -/
def get_region (b : OperationBuilder) : BRes (Nat × Region) :=
  if b.cursor.fst = 0 then .panicked
  else
    let reg := b.cursor.fst - 1
    if h : reg < b.regions.length then .ok (reg, b.regions.get ⟨reg, h⟩)
    else .panicked

/-- `push_block` (builder.rs lines 117-122): fetch the active region (panics
when there is none), append the block to it, bump the block half of the
cursor. -/
def push_block (b : OperationBuilder) (blk : BasicBlock) :
    BRes OperationBuilder :=
  match b.get_region with
  | .ok (reg, r) =>
      .ok { b with regions := b.regions.set reg (r.push_block blk)
                   cursor := (b.cursor.fst, b.cursor.snd + 1) }
  | .err => .err
  | .panicked => .panicked

/-- `get_block` (builder.rs lines 124-129): `blk := cursor.1 - 1` first
(underflow panic when `cursor.1 = 0`), then the active region, then the block
at index `blk` (indexing panic when out of range). -/
def get_block (b : OperationBuilder) : BRes BasicBlock :=
  if b.cursor.snd = 0 then .panicked
  else
    let blk := b.cursor.snd - 1
    match b.get_region with
    | .ok (_, r) =>
        if h : blk < r.blocks.length then .ok (r.blocks.get ⟨blk, h⟩)
        else .panicked
    | .err => .err
    | .panicked => .panicked

/-- `push_arg` (builder.rs lines 77-89): `blk := cursor.1 - 1` first
(underflow panic when `cursor.1 = 0`), then the active region; the region
mints the argument `Var` (or fails when block `blk` is out of range), and
when `blk = 0` the minted `Var` is also pushed onto the operand list. -/
def push_arg (b : OperationBuilder) : BRes (Var × OperationBuilder) :=
  if b.cursor.snd = 0 then .panicked
  else
    let blk := b.cursor.snd - 1
    match b.get_region with
    | .ok (reg, r) =>
        match r.push_arg blk with
        | .ok (v, r2) =>
            let b2 := { b with regions := b.regions.set reg r2 }
            .ok (v, if blk = 0 then b2.push_operand v else b2)
        | .err => .err
        | .panicked => .panicked
    | .err => .err
    | .panicked => .panicked

/-- `push_op` (builder.rs lines 131-139): `blk := cursor.1 - 1` (underflow
panic when `cursor.1 = 0`), then the active region pushes the child operation
into block `blk`, minting its result `Var`, which replaces `latest`
wholesale; the builder is returned by value for chaining. -/
def push_op (b : OperationBuilder) (v : Operation) : BRes OperationBuilder :=
  if b.cursor.snd = 0 then .panicked
  else
    let blk := b.cursor.snd - 1
    match b.get_region with
    | .ok (reg, r) =>
        match r.push_op blk v with
        | .ok (ret, r2) =>
            .ok { b with regions := b.regions.set reg r2, latest := [ret] }
        | .err => .err
        | .panicked => .panicked
    | .err => .err
    | .panicked => .panicked

/-- `finish` (builder.rs lines 143-151): always `Ok`, packaging the
accumulated fields into an `Operation` unchanged. -/
def finish (b : OperationBuilder) : BRes Operation :=
  .ok (.mk b.intrinsic b.operands b.attrs b.regions b.successors)

end OperationBuilder

/-- The block at region index `i`, block index `j` of a builder (defaulting
to the empty block out of range); used to phrase theorems about the active
block. -/
def OperationBuilder.blockAt (b : OperationBuilder) (i j : Nat) : BasicBlock :=
  (b.regions.getD i Region.empty).blocks.getD j BasicBlock.empty

/-- One mutating builder call, for reasoning about call sequences. -/
inductive Cmd : Type where
  | pushOperand : Var → Cmd
  | setOperands : List Var → Cmd
  | insertAttr : String → Attribute → Cmd
  | setCursor : Nat → Nat → Cmd
  | pushRegion : Region → Cmd
  | pushBlock : BasicBlock → Cmd
  | pushArg : Cmd
  | pushOp : Operation → Cmd

/-- Execute one builder call on a builder state. -/
def Cmd.step (c : Cmd) (b : OperationBuilder) : BRes OperationBuilder :=
  match c with
  | .pushOperand v => .ok (b.push_operand v)
  | .setOperands vs => .ok (b.set_operands vs)
  | .insertAttr k a => .ok (b.insert_attr k a)
  | .setCursor r k => .ok (b.set_cursor r k)
  | .pushRegion r => .ok (b.push_region r)
  | .pushBlock blk => b.push_block blk
  | .pushArg =>
      match b.push_arg with
      | .ok (_, b2) => .ok b2
      | .err => .err
      | .panicked => .panicked
  | .pushOp op => b.push_op op

/-- Execute a sequence of builder calls; an `Err` return or a panic aborts
the sequence. -/
def runCmds : List Cmd → OperationBuilder → BRes OperationBuilder
  | [], b => .ok b
  | c :: t, b =>
      match c.step b with
      | .ok b2 => runCmds t b2
      | .err => .err
      | .panicked => .panicked

/-- How one successful builder call moves the cursor. -/
def Cmd.cursorStep (c : Cmd) (cur : Nat × Nat) : Nat × Nat :=
  match c with
  | .setCursor r k => (r, k)
  | .pushRegion _ => (cur.fst + 1, cur.snd)
  | .pushBlock _ => (cur.fst, cur.snd + 1)
  | _ => cur

/-- The cursor after a sequence of successful builder calls. -/
def cursorAfter : List Cmd → Nat × Nat → Nat × Nat
  | [], cur => cur
  | c :: t, cur => cursorAfter t (c.cursorStep cur)

/-- The per-region block counts of a builder. -/
def blockLens (b : OperationBuilder) : List Nat :=
  b.regions.map fun r => r.blocks.length

/-- How one successful builder call changes the per-region block counts,
given the cursor at the time of the call: `push_region r` contributes the
block count `r` arrives with, `push_block` bumps the count of the active
region, and nothing else changes any count. -/
def Cmd.blockLensStep (c : Cmd) (cur : Nat × Nat) (ls : List Nat) :
    List Nat :=
  match c with
  | .pushRegion r => ls ++ [r.blocks.length]
  | .pushBlock _ => ls.set (cur.fst - 1) (ls.getD (cur.fst - 1) 0 + 1)
  | _ => ls

/-- Per-region block counts after a sequence of successful builder calls. -/
def blockLensAfter : List Cmd → Nat × Nat → List Nat → List Nat
  | [], _, ls => ls
  | c :: t, cur, ls => blockLensAfter t (c.cursorStep cur) (c.blockLensStep cur ls)

/-- The number of `push_region` calls in a sequence. -/
def countPushRegion : List Cmd → Nat
  | [] => 0
  | .pushRegion _ :: t => countPushRegion t + 1
  | _ :: t => countPushRegion t

/-- The number of `push_operand` calls in a sequence. -/
def countPushOperand : List Cmd → Nat
  | [] => 0
  | .pushOperand _ :: t => countPushOperand t + 1
  | _ :: t => countPushOperand t

/-- The number of `push_arg` calls in a sequence made while the active block
is its region's entry block (block half of the cursor equal to 1, i.e.
active block index 0) — the calls that also mint an operand. -/
def entryArgCount : List Cmd → Nat × Nat → Nat
  | [], _ => 0
  | .pushArg :: t, cur => (if cur.snd = 1 then 1 else 0) + entryArgCount t cur
  | c :: t, cur => entryArgCount t (c.cursorStep cur)

/-- How many operands one successful builder call appends, given the cursor
at the time of the call: `push_operand` appends one, and `push_arg` appends
the minted argument exactly when the active block is the entry block of the
active region (block half of the cursor equal to 1). -/
def Cmd.opContrib (c : Cmd) (cur : Nat × Nat) : Nat :=
  match c with
  | .pushOperand _ => 1
  | .pushArg => if cur.snd = 1 then 1 else 0
  | _ => 0

/-- Per-region counts of `push_block` calls issued while that region was
active, over a sequence of successful builder calls: `push_region`
contributes a fresh zero count, `push_block` bumps the count of the active
region, every other call leaves the counts alone (only moving the cursor). -/
def blockPushCounts : List Cmd → Nat × Nat → List Nat → List Nat
  | [], _, ls => ls
  | .pushRegion _ :: t, cur, ls =>
      blockPushCounts t (cur.fst + 1, cur.snd) (ls ++ [0])
  | .pushBlock _ :: t, cur, ls =>
      blockPushCounts t (cur.fst, cur.snd + 1)
        (ls.set (cur.fst - 1) (ls.getD (cur.fst - 1) 0 + 1))
  | c :: t, cur, ls => blockPushCounts t (c.cursorStep cur) ls

/-- `true` when the sequence contains a `set_operands` call. -/
def usesSetOperands : List Cmd → Bool
  | [] => false
  | .setOperands _ :: _ => true
  | _ :: t => usesSetOperands t

/-- `true` when every region handed to `push_region` in the sequence is
empty (the spec's lifecycle: regions are created empty and then pushed). -/
def pushesEmptyRegions : List Cmd → Bool
  | [] => true
  | .pushRegion r :: t => r.blocks.isEmpty && pushesEmptyRegions t
  | _ :: t => pushesEmptyRegions t

/-! ## Concrete inputs used to instantiate the theorems -/

/-- A sample intrinsic (the spec's scenario uses intrinsic `const`). -/
def cIntr : Intrinsic := ⟨"const", []⟩

/-- The builder after `create(const); push_region; push_block`: one region
holding one empty block, cursor `(1, 1)`. -/
def bA : OperationBuilder :=
  { latest := [], cursor := (1, 1), intrinsic := cIntr, operands := [],
    attrs := [], regions := [Region.mk [BasicBlock.empty] 0],
    successors := [] }

/-- The builder `bA` after `push_block_argument`: the minted `Var 0` appears
both as the entry block's only argument and as the only operand. -/
def bA2 : OperationBuilder :=
  { latest := [], cursor := (1, 1), intrinsic := cIntr,
    operands := [Var.mk 0], attrs := [],
    regions := [Region.mk [BasicBlock.mk [Var.mk 0] [] 0] 1],
    successors := [] }

/-- A call sequence with two `push_region`s and one `push_block` into each
region. -/
def c4cmds : List Cmd :=
  [.pushRegion .empty, .pushBlock .empty, .pushRegion .empty,
   .pushBlock .empty]

/-- The builder resulting from `c4cmds` on a fresh builder. -/
def c4res : OperationBuilder :=
  { latest := [], cursor := (2, 2), intrinsic := cIntr, operands := [],
    attrs := [],
    regions := [Region.mk [BasicBlock.empty] 0,
      Region.mk [BasicBlock.empty] 0],
    successors := [] }

/-- A call sequence with one entry-block argument mint and one explicit
operand push. -/
def c5cmds : List Cmd :=
  [.pushRegion .empty, .pushBlock .empty, .pushArg, .pushOperand (Var.mk 5)]

/-- The builder resulting from `c5cmds` on a fresh builder: two operands,
one minted and one pushed explicitly. -/
def c5res : OperationBuilder :=
  { latest := [], cursor := (1, 1), intrinsic := cIntr,
    operands := [Var.mk 0, Var.mk 5], attrs := [],
    regions := [Region.mk [BasicBlock.mk [Var.mk 0] [] 0] 1],
    successors := [] }

/-- A child operation to push into a block. -/
def childOp : Operation := .mk cIntr [] [] [] []

/-- The builder `bA` after `push_op childOp`: the child sits in the entry
block's operation list and the minted result `Var 0` is the latest record. -/
def c6res : OperationBuilder :=
  { latest := [Var.mk 0], cursor := (1, 1), intrinsic := cIntr,
    operands := [], attrs := [],
    regions := [Region.mk [BasicBlock.mk [] [childOp] 1] 0],
    successors := [] }

/-! ## Helper lemmas -/

theorem listGetD_of_lt {α : Type} (l : List α) (i : Nat) (d : α)
    (h : i < l.length) : l.getD i d = l.get ⟨i, h⟩ := by
  rw [List.getD_eq_getElem l d h]
  rfl

theorem listSet_get_self {α : Type} (l : List α) (i : Nat) (h : i < l.length) :
    l.set i (l.get ⟨i, h⟩) = l := by
  apply List.ext_getElem
  · simp
  · intro n h1 h2
    by_cases hn : n = i
    · subst hn
      simp [List.getElem_set]
    · simp only [List.getElem_set]
      rw [if_neg (fun he => hn he.symm)]

theorem listMap_set_same {α β : Type} (f : α → β) (l : List α) (i : Nat)
    (a : α) (h : i < l.length) (he : f a = f (l.get ⟨i, h⟩)) :
    (l.set i a).map f = l.map f := by
  rw [List.map_set, he]
  have hm : i < (l.map f).length := by simpa using h
  have : f (l.get ⟨i, h⟩) = (l.map f).get ⟨i, hm⟩ := by
    simp
  rw [this, listSet_get_self]

theorem lookup_insertA (l : List (String × Attribute)) (k : String)
    (a : Attribute) : (OperationBuilder.insertA l k a).lookup k = some a := by
  induction l with
  | nil => simp [OperationBuilder.insertA, List.lookup]
  | cons hd t ih =>
    obtain ⟨k2, a2⟩ := hd
    by_cases hk : k2 = k
    · simp [OperationBuilder.insertA, hk, List.lookup]
    · simp only [OperationBuilder.insertA, if_neg hk, List.lookup]
      have : (k == k2) = false := by
        simp [beq_iff_eq]
        exact fun he => hk he.symm
      rw [this]
      exact ih

theorem listGetD_set_self {α : Type} (l : List α) (i : Nat) (a d : α)
    (h : i < l.length) : (l.set i a).getD i d = a := by
  rw [listGetD_of_lt _ _ _ (by simpa using h)]
  have := List.getElem_set_self (l := l) (i := i) (a := a) (h := by simpa using h)
  simpa using this

/-- Evaluation of `Region::push_arg` at an in-range block index. -/
theorem region_push_arg_eval (r : Region) (i : Nat) (h : i < r.blocks.length) :
    r.push_arg i = .ok (Var.mk r.counter,
      .mk (r.blocks.set i
        (.mk ((r.blocks.get ⟨i, h⟩).args ++ [Var.mk r.counter])
          (r.blocks.get ⟨i, h⟩).ops (r.blocks.get ⟨i, h⟩).counter))
        (r.counter + 1)) := by
  simp [Region.push_arg, h]

/-- Evaluation of `Region::push_op` at an in-range block index. -/
theorem region_push_op_eval (r : Region) (i : Nat) (op : Operation)
    (h : i < r.blocks.length) :
    r.push_op i op = .ok (Var.mk (r.blocks.get ⟨i, h⟩).counter,
      .mk (r.blocks.set i
        (.mk (r.blocks.get ⟨i, h⟩).args ((r.blocks.get ⟨i, h⟩).ops ++ [op])
          ((r.blocks.get ⟨i, h⟩).counter + 1)))
        r.counter) := by
  simp [Region.push_op, h]

/-- Evaluation of `get_region` at a valid region cursor. -/
theorem get_region_eval (b : OperationBuilder) (hfz : b.cursor.fst ≠ 0)
    (hr : b.cursor.fst - 1 < b.regions.length) :
    b.get_region = .ok (b.cursor.fst - 1,
      b.regions.get ⟨b.cursor.fst - 1, hr⟩) := by
  simp [OperationBuilder.get_region, hfz, hr]

/-- Evaluation of `push_arg` at a valid cursor. -/
theorem push_arg_eval (b : OperationBuilder) (hsz : b.cursor.snd ≠ 0)
    (hfz : b.cursor.fst ≠ 0) (hr : b.cursor.fst - 1 < b.regions.length)
    (hb : b.cursor.snd - 1 <
      (b.regions.get ⟨b.cursor.fst - 1, hr⟩).blocks.length) :
    b.push_arg =
      (let r := b.regions.get ⟨b.cursor.fst - 1, hr⟩
       let v := Var.mk r.counter
       let oldb := r.blocks.get ⟨b.cursor.snd - 1, hb⟩
       let r2 : Region := .mk (r.blocks.set (b.cursor.snd - 1)
           (.mk (oldb.args ++ [v]) oldb.ops oldb.counter)) (r.counter + 1)
       let bmid : OperationBuilder :=
         { b with regions := b.regions.set (b.cursor.fst - 1) r2 }
       .ok (v, if b.cursor.snd - 1 = 0 then bmid.push_operand v else bmid)) := by
  simp only [OperationBuilder.push_arg, if_neg hsz, get_region_eval b hfz hr,
    region_push_arg_eval _ _ hb]

/-- Evaluation of `push_op` at a valid cursor. -/
theorem push_op_eval (b : OperationBuilder) (op : Operation)
    (hsz : b.cursor.snd ≠ 0) (hfz : b.cursor.fst ≠ 0)
    (hr : b.cursor.fst - 1 < b.regions.length)
    (hb : b.cursor.snd - 1 <
      (b.regions.get ⟨b.cursor.fst - 1, hr⟩).blocks.length) :
    b.push_op op =
      (let r := b.regions.get ⟨b.cursor.fst - 1, hr⟩
       let oldb := r.blocks.get ⟨b.cursor.snd - 1, hb⟩
       let r2 : Region := .mk (r.blocks.set (b.cursor.snd - 1)
           (.mk oldb.args (oldb.ops ++ [op]) (oldb.counter + 1))) r.counter
       .ok { b with regions := b.regions.set (b.cursor.fst - 1) r2,
                    latest := [Var.mk oldb.counter] }) := by
  simp only [OperationBuilder.push_op, if_neg hsz, get_region_eval b hfz hr,
    region_push_op_eval _ _ _ hb]

/-- Evaluation of `push_block` at a valid region cursor. -/
theorem push_block_eval (b : OperationBuilder) (blk : BasicBlock)
    (hfz : b.cursor.fst ≠ 0) (hr : b.cursor.fst - 1 < b.regions.length) :
    b.push_block blk =
      (let r2 := (b.regions.get ⟨b.cursor.fst - 1, hr⟩).push_block blk
       .ok { b with
              regions := b.regions.set (b.cursor.fst - 1) r2,
              cursor := (b.cursor.fst, b.cursor.snd + 1) }) := by
  simp only [OperationBuilder.push_block, get_region_eval b hfz hr]

/-- Setting a region slot to a region with the same number of blocks leaves
the per-region block counts unchanged. -/
theorem blockLens_set (b : OperationBuilder) (i : Nat) (r2 : Region)
    (h : i < b.regions.length)
    (he : r2.blocks.length = (b.regions.get ⟨i, h⟩).blocks.length) :
    (b.regions.set i r2).map (fun r => r.blocks.length) = blockLens b :=
  listMap_set_same _ _ _ _ h he

/-- What a successful `push_arg` does to the cursor, the per-region block
counts and the operand list. -/
theorem push_arg_effects (b : OperationBuilder) (v : Var)
    (b2 : OperationBuilder) (h : b.push_arg = .ok (v, b2)) :
    b2.cursor = b.cursor ∧ blockLens b2 = blockLens b ∧
    b2.operands =
      (if b.cursor.snd = 1 then b.operands ++ [v] else b.operands) := by
  by_cases hsz : b.cursor.snd = 0
  · simp [OperationBuilder.push_arg, hsz] at h
  by_cases hfz : b.cursor.fst = 0
  · simp [OperationBuilder.push_arg, hsz, OperationBuilder.get_region,
      hfz] at h
  by_cases hr : b.cursor.fst - 1 < b.regions.length
  case neg =>
    simp [OperationBuilder.push_arg, hsz, OperationBuilder.get_region, hfz,
      hr] at h
  by_cases hb : b.cursor.snd - 1 < (b.regions[b.cursor.fst - 1]).blocks.length
  case neg =>
    simp [OperationBuilder.push_arg, hsz, OperationBuilder.get_region, hfz,
      hr, Region.push_arg, hb] at h
  rw [push_arg_eval b hsz hfz hr (by simpa using hb)] at h
  simp only [BRes.ok.injEq, Prod.mk.injEq] at h
  obtain ⟨hv, hb2⟩ := h
  subst hv
  by_cases hone : b.cursor.snd - 1 = 0
  · rw [if_pos hone] at hb2
    subst hb2
    have hs1 : b.cursor.snd = 1 := by omega
    refine ⟨rfl, ?_, by simp [OperationBuilder.push_operand, hs1]⟩
    show ((b.regions.set (b.cursor.fst - 1) _).map fun r => r.blocks.length)
      = blockLens b
    exact blockLens_set b _ _ hr (by simp [Region.blocks])
  · rw [if_neg hone] at hb2
    subst hb2
    have hs1 : b.cursor.snd ≠ 1 := by omega
    refine ⟨rfl, ?_, by simp [hs1]⟩
    show ((b.regions.set (b.cursor.fst - 1) _).map fun r => r.blocks.length)
      = blockLens b
    exact blockLens_set b _ _ hr (by simp [Region.blocks])

/-- What a successful `push_block` does to the cursor, the per-region block
counts and the operand list. -/
theorem push_block_effects (b : OperationBuilder) (blk : BasicBlock)
    (b2 : OperationBuilder) (h : b.push_block blk = .ok b2) :
    b2.cursor = (b.cursor.fst, b.cursor.snd + 1) ∧
    b2.operands = b.operands ∧
    blockLens b2 = (blockLens b).set (b.cursor.fst - 1)
      ((blockLens b).getD (b.cursor.fst - 1) 0 + 1) := by
  by_cases hfz : b.cursor.fst = 0
  · simp [OperationBuilder.push_block, OperationBuilder.get_region, hfz] at h
  by_cases hr : b.cursor.fst - 1 < b.regions.length
  case neg =>
    simp [OperationBuilder.push_block, OperationBuilder.get_region, hfz,
      hr] at h
  rw [push_block_eval b blk hfz hr] at h
  simp only [BRes.ok.injEq] at h
  subst h
  refine ⟨rfl, rfl, ?_⟩
  show (b.regions.set (b.cursor.fst - 1) _).map (fun r => r.blocks.length) = _
  rw [List.map_set]
  have hd : (blockLens b).getD (b.cursor.fst - 1) 0 =
      (b.regions.get ⟨b.cursor.fst - 1, hr⟩).blocks.length := by
    rw [listGetD_of_lt _ _ _ (by simpa [blockLens] using hr)]
    simp [blockLens]
  rw [hd]
  simp [Region.push_block, Region.blocks, blockLens]

/-- What a successful `push_op` does to the cursor, the per-region block
counts and the operand list. -/
theorem push_op_effects (b : OperationBuilder) (op : Operation)
    (b2 : OperationBuilder) (h : b.push_op op = .ok b2) :
    b2.cursor = b.cursor ∧ b2.operands = b.operands ∧
    blockLens b2 = blockLens b := by
  by_cases hsz : b.cursor.snd = 0
  · simp [OperationBuilder.push_op, hsz] at h
  by_cases hfz : b.cursor.fst = 0
  · simp [OperationBuilder.push_op, hsz, OperationBuilder.get_region,
      hfz] at h
  by_cases hr : b.cursor.fst - 1 < b.regions.length
  case neg =>
    simp [OperationBuilder.push_op, hsz, OperationBuilder.get_region, hfz,
      hr] at h
  by_cases hb : b.cursor.snd - 1 < (b.regions[b.cursor.fst - 1]).blocks.length
  case neg =>
    simp [OperationBuilder.push_op, hsz, OperationBuilder.get_region, hfz,
      hr, Region.push_op, hb] at h
  rw [push_op_eval b op hsz hfz hr (by simpa using hb)] at h
  simp only [BRes.ok.injEq] at h
  subst h
  refine ⟨rfl, rfl, ?_⟩
  show (b.regions.set (b.cursor.fst - 1) _).map (fun r => r.blocks.length)
    = blockLens b
  exact blockLens_set b _ _ hr (by simp [Region.blocks])

/-- One successful builder call moves the cursor by `cursorStep` and the
per-region block counts by `blockLensStep`. -/
theorem step_effects (c : Cmd) (b b2 : OperationBuilder)
    (h : c.step b = .ok b2) :
    b2.cursor = c.cursorStep b.cursor ∧
    blockLens b2 = c.blockLensStep b.cursor (blockLens b) := by
  cases c with
  | pushOperand v =>
      simp only [Cmd.step, BRes.ok.injEq] at h
      subst h
      exact ⟨rfl, rfl⟩
  | setOperands vs =>
      simp only [Cmd.step, BRes.ok.injEq] at h
      subst h
      exact ⟨rfl, rfl⟩
  | insertAttr k a =>
      simp only [Cmd.step, BRes.ok.injEq] at h
      subst h
      exact ⟨rfl, rfl⟩
  | setCursor r k =>
      simp only [Cmd.step, BRes.ok.injEq] at h
      subst h
      exact ⟨rfl, rfl⟩
  | pushRegion r =>
      simp only [Cmd.step, BRes.ok.injEq] at h
      subst h
      refine ⟨rfl, ?_⟩
      simp [blockLens, OperationBuilder.push_region, Cmd.blockLensStep]
  | pushBlock blk =>
      simp only [Cmd.step] at h
      obtain ⟨h1, _, h3⟩ := push_block_effects b blk b2 h
      exact ⟨h1, h3⟩
  | pushArg =>
      simp only [Cmd.step] at h
      cases hpa : b.push_arg with
      | ok p =>
          rw [hpa] at h
          simp only [BRes.ok.injEq] at h
          obtain ⟨v, b1⟩ := p
          subst h
          obtain ⟨h1, h2, _⟩ := push_arg_effects b v b1 hpa
          exact ⟨h1, h2⟩
      | err => rw [hpa] at h; cases h
      | panicked => rw [hpa] at h; cases h
  | pushOp op =>
      simp only [Cmd.step] at h
      obtain ⟨h1, _, h3⟩ := push_op_effects b op b2 h
      exact ⟨h1, h3⟩

/-- One successful builder call other than `set_operands` adds exactly
`opContrib` operands. -/
theorem step_operands_len (c : Cmd) (b b2 : OperationBuilder)
    (h : c.step b = .ok b2) (hns : ∀ vs, c ≠ .setOperands vs) :
    b2.operands.length = b.operands.length + c.opContrib b.cursor := by
  cases c with
  | pushOperand v =>
      simp only [Cmd.step, BRes.ok.injEq] at h
      subst h
      simp [OperationBuilder.push_operand, Cmd.opContrib]
  | setOperands vs => exact absurd rfl (hns vs)
  | insertAttr k a =>
      simp only [Cmd.step, BRes.ok.injEq] at h
      subst h
      simp [OperationBuilder.insert_attr, Cmd.opContrib]
  | setCursor r k =>
      simp only [Cmd.step, BRes.ok.injEq] at h
      subst h
      simp [OperationBuilder.set_cursor, Cmd.opContrib]
  | pushRegion r =>
      simp only [Cmd.step, BRes.ok.injEq] at h
      subst h
      simp [OperationBuilder.push_region, Cmd.opContrib]
  | pushBlock blk =>
      simp only [Cmd.step] at h
      obtain ⟨_, h2, _⟩ := push_block_effects b blk b2 h
      simp [h2, Cmd.opContrib]
  | pushArg =>
      simp only [Cmd.step] at h
      cases hpa : b.push_arg with
      | ok p =>
          rw [hpa] at h
          simp only [BRes.ok.injEq] at h
          obtain ⟨v, b1⟩ := p
          subst h
          obtain ⟨_, _, h3⟩ := push_arg_effects b v b1 hpa
          by_cases hone : b.cursor.snd = 1
          · rw [if_pos hone] at h3
            simp [h3, Cmd.opContrib, hone]
          · rw [if_neg hone] at h3
            simp [h3, Cmd.opContrib, hone]
      | err => rw [hpa] at h; cases h
      | panicked => rw [hpa] at h; cases h
  | pushOp op =>
      simp only [Cmd.step] at h
      obtain ⟨_, h2, _⟩ := push_op_effects b op b2 h
      simp [h2, Cmd.opContrib]

/-- A successful run of a call sequence moves the cursor by `cursorAfter`
and the per-region block counts by `blockLensAfter`. -/
theorem runCmds_effects : ∀ (cmds : List Cmd) (b b2 : OperationBuilder),
    runCmds cmds b = .ok b2 →
    b2.cursor = cursorAfter cmds b.cursor ∧
    blockLens b2 = blockLensAfter cmds b.cursor (blockLens b) := by
  intro cmds
  induction cmds with
  | nil =>
      intro b b2 h
      simp only [runCmds, BRes.ok.injEq] at h
      subst h
      exact ⟨rfl, rfl⟩
  | cons c t ih =>
      intro b b2 h
      simp only [runCmds] at h
      cases hs : c.step b with
      | ok b1 =>
          rw [hs] at h
          obtain ⟨h1, h2⟩ := step_effects c b b1 hs
          obtain ⟨h3, h4⟩ := ih b1 b2 h
          refine ⟨?_, ?_⟩
          · rw [h3, h1]
            rfl
          · rw [h4, h1, h2]
            rfl
      | err => rw [hs] at h; cases h
      | panicked => rw [hs] at h; cases h

/-- A successful run of a call sequence without `set_operands` grows the
operand list by the `push_operand` count plus the entry-block argument
mints. -/
theorem runCmds_operands_len : ∀ (cmds : List Cmd) (b b2 : OperationBuilder),
    runCmds cmds b = .ok b2 → usesSetOperands cmds = false →
    b2.operands.length =
      b.operands.length + countPushOperand cmds +
        entryArgCount cmds b.cursor := by
  intro cmds
  induction cmds with
  | nil =>
      intro b b2 h _
      simp only [runCmds, BRes.ok.injEq] at h
      subst h
      simp [countPushOperand, entryArgCount]
  | cons c t ih =>
      intro b b2 h hns
      have hnsc : ∀ vs, c ≠ Cmd.setOperands vs := by
        intro vs he
        subst he
        simp [usesSetOperands] at hns
      have hnst : usesSetOperands t = false := by
        cases c <;> simpa [usesSetOperands] using hns
      simp only [runCmds] at h
      cases hs : c.step b with
      | ok b1 =>
          rw [hs] at h
          have hcur := (step_effects c b b1 hs).1
          have hlen := step_operands_len c b b1 hs hnsc
          have hih := ih b1 b2 h hnst
          rw [hih, hlen, hcur]
          cases c <;>
            simp [countPushOperand, entryArgCount, Cmd.opContrib,
              Cmd.cursorStep] <;>
            omega
      | err => rw [hs] at h; cases h
      | panicked => rw [hs] at h; cases h

/-- When every pushed region is empty, the per-region block counts of a run
are exactly the per-region `push_block` counts. -/
theorem blockLensAfter_eq_counts :
    ∀ (cmds : List Cmd) (cur : Nat × Nat) (ls : List Nat),
    pushesEmptyRegions cmds = true →
    blockLensAfter cmds cur ls = blockPushCounts cmds cur ls := by
  intro cmds
  induction cmds with
  | nil => intro cur ls _; rfl
  | cons c t ih =>
      intro cur ls h
      cases c with
      | pushRegion r =>
          simp only [pushesEmptyRegions, Bool.and_eq_true] at h
          have hz : r.blocks.length = 0 := by
            cases hb : r.blocks
            · rfl
            · rw [hb] at h
              simp [List.isEmpty] at h
          simp only [blockLensAfter, blockPushCounts, Cmd.blockLensStep,
            Cmd.cursorStep, hz]
          exact ih _ _ h.2
      | pushOperand v =>
          simp only [blockLensAfter, blockPushCounts, Cmd.blockLensStep,
            Cmd.cursorStep]
          exact ih _ _ (by simpa [pushesEmptyRegions] using h)
      | setOperands vs =>
          simp only [blockLensAfter, blockPushCounts, Cmd.blockLensStep,
            Cmd.cursorStep]
          exact ih _ _ (by simpa [pushesEmptyRegions] using h)
      | insertAttr k a =>
          simp only [blockLensAfter, blockPushCounts, Cmd.blockLensStep,
            Cmd.cursorStep]
          exact ih _ _ (by simpa [pushesEmptyRegions] using h)
      | setCursor r k =>
          simp only [blockLensAfter, blockPushCounts, Cmd.blockLensStep,
            Cmd.cursorStep]
          exact ih _ _ (by simpa [pushesEmptyRegions] using h)
      | pushBlock blk =>
          simp only [blockLensAfter, blockPushCounts, Cmd.blockLensStep,
            Cmd.cursorStep]
          exact ih _ _ (by simpa [pushesEmptyRegions] using h)
      | pushArg =>
          simp only [blockLensAfter, blockPushCounts, Cmd.blockLensStep,
            Cmd.cursorStep]
          exact ih _ _ (by simpa [pushesEmptyRegions] using h)
      | pushOp op =>
          simp only [blockLensAfter, blockPushCounts, Cmd.blockLensStep,
            Cmd.cursorStep]
          exact ih _ _ (by simpa [pushesEmptyRegions] using h)

/-- `blockPushCounts` adds one entry per `push_region` call. -/
theorem blockPushCounts_length :
    ∀ (cmds : List Cmd) (cur : Nat × Nat) (ls : List Nat),
    (blockPushCounts cmds cur ls).length = ls.length + countPushRegion cmds := by
  intro cmds
  induction cmds with
  | nil => intro cur ls; simp [blockPushCounts, countPushRegion]
  | cons c t ih =>
      intro cur ls
      cases c <;>
        simp [blockPushCounts, countPushRegion, ih] <;>
        omega

theorem region_blocks_mk (bs : List BasicBlock) (c : Nat) :
    (Region.mk bs c).blocks = bs := rfl

theorem basicBlock_args_mk (a : List Var) (o : List Operation) (c : Nat) :
    (BasicBlock.mk a o c).args = a := rfl

theorem basicBlock_ops_mk (a : List Var) (o : List Operation) (c : Nat) :
    (BasicBlock.mk a o c).ops = o := rfl

/-! ## Claims -/

/-- C1 (counterexample): on a fresh builder (cursor `(0, 0)`, no region, no
block), `push_block`, `get_block` (the spec's `get_active_block`) and
`push_arg` (the spec's `push_block_argument`) all panic — `cursor.0 - 1`
(resp. `cursor.1 - 1`) underflows on `usize` and the subsequent `Vec` index
is out of bounds — instead of returning the typed errors `NoActiveRegion` /
`NoActiveBlock` the claim describes.  No such variants even exist in the
code's `BuilderError` enum (builder.rs lines 19-23).  This refutes the
claim's "returns the documented typed error ... does not panic". -/
theorem C1_counterexample :
    (OperationBuilder.default ⟨"const", []⟩).push_block BasicBlock.empty =
        .panicked ∧
    (OperationBuilder.default ⟨"const", []⟩).get_block = .panicked ∧
    (OperationBuilder.default ⟨"const", []⟩).push_arg = .panicked :=
  ⟨rfl, rfl, rfl⟩

/-- C1 (amended): when the precondition is not met, the calls fail by
panicking, not by returning a typed error: `push_block` with the region half
of the cursor at 0 panics, and `get_block` / `push_arg` with the block half
of the cursor at 0 panic; moreover the code's `BuilderError` enum contains
only `BuilderCreationFailure` and `Caseless`, so no `NoActiveRegion` or
`NoActiveBlock` error exists to return.  (Since the call panics, there is no
post-call builder state.) -/
theorem C1_amended (b : OperationBuilder) (blk : BasicBlock) :
    (b.cursor.fst = 0 → b.push_block blk = .panicked) ∧
    (b.cursor.snd = 0 → b.get_block = .panicked ∧ b.push_arg = .panicked) ∧
    (∀ e : BuilderError, e = .BuilderCreationFailure ∨ e = .Caseless) := by
  refine ⟨fun h => ?_, fun h => ⟨?_, ?_⟩, fun e => ?_⟩
  · simp [OperationBuilder.push_block, OperationBuilder.get_region, h]
  · simp [OperationBuilder.get_block, h]
  · simp [OperationBuilder.push_arg, h]
  · cases e
    · exact Or.inl rfl
    · exact Or.inr rfl

/-- C1 (witness for the amended theorem): instantiated on a fresh builder for
the intrinsic `"c"`, whose cursor is `(0, 0)`. -/
theorem C1_amended_witness :
    (OperationBuilder.default ⟨"c", []⟩).push_block BasicBlock.empty =
        .panicked ∧
    (OperationBuilder.default ⟨"c", []⟩).get_block = .panicked ∧
    (OperationBuilder.default ⟨"c", []⟩).push_arg = .panicked :=
  ⟨(C1_amended (OperationBuilder.default ⟨"c", []⟩) BasicBlock.empty).1 rfl,
   ((C1_amended (OperationBuilder.default ⟨"c", []⟩) BasicBlock.empty).2.1
      rfl).1,
   ((C1_amended (OperationBuilder.default ⟨"c", []⟩) BasicBlock.empty).2.1
      rfl).2⟩

/-- C2: `push_region` appends the given region and increments the region
half of the cursor by one, while the block half carries over unchanged (no
reset to zero); the operands, attributes, successors, latest record and
intrinsic are all untouched. -/
theorem C2_push_region (b : OperationBuilder) (r : Region) :
    (b.push_region r).regions = b.regions ++ [r] ∧
    (b.push_region r).cursor = (b.cursor.fst + 1, b.cursor.snd) ∧
    (b.push_region r).operands = b.operands ∧
    (b.push_region r).attrs = b.attrs ∧
    (b.push_region r).successors = b.successors ∧
    (b.push_region r).latest = b.latest ∧
    (b.push_region r).intrinsic = b.intrinsic :=
  ⟨rfl, rfl, rfl, rfl, rfl, rfl, rfl⟩

/-- C7: after `insert_attr k a`, `get_attr k` returns `a`; a second insert
under the same key overwrites the first (last write wins); and `get_attr` on
a never-inserted key (here: any key of a fresh builder) returns `none`
rather than an error. -/
theorem C7_attrs :
    (∀ (b : OperationBuilder) (k : String) (a : Attribute),
      (b.insert_attr k a).get_attr k = some a) ∧
    (∀ (b : OperationBuilder) (k : String) (a1 a2 : Attribute),
      ((b.insert_attr k a1).insert_attr k a2).get_attr k = some a2) ∧
    (∀ (intr : Intrinsic) (k : String),
      (OperationBuilder.default intr).get_attr k = none) := by
  refine ⟨fun b k a => ?_, fun b k a1 a2 => ?_, fun intr k => ?_⟩
  · exact lookup_insertA b.attrs k a
  · exact lookup_insertA (OperationBuilder.insertA b.attrs k a1) k a2
  · rfl

/-- C8: for every intrinsic, builder creation (`default`) never fails and
yields a builder with empty operands, attributes, regions, successors and
latest record, and cursor `(0, 0)`. -/
theorem C8_default (intr : Intrinsic) :
    OperationBuilder.default intr =
      { latest := [], cursor := (0, 0), intrinsic := intr, operands := [],
        attrs := [], regions := [], successors := [] } :=
  rfl

/-- C9: `get_operands` ignores its `Var` parameter — for any two vars the
result is the same, namely (a copy of) the builder's complete operand
list. -/
theorem C9_get_operands (b : OperationBuilder) (v1 v2 : Var) :
    b.get_operands v1 = b.get_operands v2 ∧ b.get_operands v1 = b.operands :=
  ⟨rfl, rfl⟩

/-- C10: `set_cursor reg blk` unconditionally sets the cursor to exactly
`(reg, blk)` — with no validation against the region or block lists, for
arbitrary `reg` and `blk` — never fails, changes no other builder field, and
a subsequent `get_cursor` returns `(reg, blk)`. -/
theorem C10_set_cursor (b : OperationBuilder) (reg blk : Nat) :
    (b.set_cursor reg blk).cursor = (reg, blk) ∧
    (b.set_cursor reg blk).get_cursor = (reg, blk) ∧
    (b.set_cursor reg blk).latest = b.latest ∧
    (b.set_cursor reg blk).intrinsic = b.intrinsic ∧
    (b.set_cursor reg blk).operands = b.operands ∧
    (b.set_cursor reg blk).attrs = b.attrs ∧
    (b.set_cursor reg blk).regions = b.regions ∧
    (b.set_cursor reg blk).successors = b.successors :=
  ⟨rfl, rfl, rfl, rfl, rfl, rfl, rfl, rfl⟩

/-- C3: on a builder with an active region and active block, `push_arg`
(the spec's `push_block_argument`) succeeds, minting the region's next fresh
`Var` as a new argument appended to the active block's argument list; when
the active block is the region's entry block (index 0, i.e. the block half
of the cursor is 1) the same `Var` is also appended to the builder's operand
list, and otherwise the operand list is untouched.  (The returned-by-value
builder, i.e. the `&mut self` receiver in Rust, is the `b2` of the `ok`
result.) -/
theorem C3_push_arg (b : OperationBuilder)
    (h1 : 0 < b.cursor.fst) (h2 : 0 < b.cursor.snd)
    (hr : b.cursor.fst - 1 < b.regions.length)
    (hb : b.cursor.snd - 1 <
      (b.regions.get ⟨b.cursor.fst - 1, hr⟩).blocks.length) :
    (∃ p, b.push_arg = .ok p) ∧
    (∀ (v : Var) (b2 : OperationBuilder), b.push_arg = .ok (v, b2) →
      v = Var.mk (b.regions.get ⟨b.cursor.fst - 1, hr⟩).counter ∧
      (b2.blockAt (b.cursor.fst - 1) (b.cursor.snd - 1)).args =
        (b.blockAt (b.cursor.fst - 1) (b.cursor.snd - 1)).args ++ [v] ∧
      (b.cursor.snd = 1 → b2.operands = b.operands ++ [v]) ∧
      (b.cursor.snd ≠ 1 → b2.operands = b.operands)) := by
  have hsz : b.cursor.snd ≠ 0 := by omega
  have hfz : b.cursor.fst ≠ 0 := by omega
  have he := push_arg_eval b hsz hfz hr hb
  refine ⟨⟨_, he⟩, ?_⟩
  intro v b2 hok
  rw [he] at hok
  simp only [BRes.ok.injEq, Prod.mk.injEq] at hok
  obtain ⟨hv, hb2⟩ := hok
  by_cases hone : b.cursor.snd - 1 = 0
  · rw [if_pos hone] at hb2
    have hs1 : b.cursor.snd = 1 := by omega
    subst hv
    subst hb2
    refine ⟨rfl, ?_, fun _ => ?_, fun hne => absurd hs1 hne⟩
    · simp only [OperationBuilder.blockAt, OperationBuilder.push_operand]
      rw [listGetD_set_self _ _ _ _ hr, listGetD_of_lt _ _ _ hr]
      simp only [region_blocks_mk]
      rw [listGetD_set_self _ _ _ _ hb, listGetD_of_lt _ _ _ hb]
      simp only [basicBlock_args_mk]
    · simp [OperationBuilder.push_operand]
  · rw [if_neg hone] at hb2
    have hs1 : b.cursor.snd ≠ 1 := by omega
    subst hv
    subst hb2
    refine ⟨rfl, ?_, fun h1x => absurd h1x hs1, fun _ => rfl⟩
    simp only [OperationBuilder.blockAt]
    rw [listGetD_set_self _ _ _ _ hr, listGetD_of_lt _ _ _ hr]
    simp only [region_blocks_mk]
    rw [listGetD_set_self _ _ _ _ hb, listGetD_of_lt _ _ _ hb]
    simp only [basicBlock_args_mk]

/-- C3 (witness): the spec's Scenario A — `create(const)`; `push_region`;
`push_block`; `push_block_argument` — ends with operand list `[Var 0]` and
entry-block argument list `[Var 0]`: length 1 each, holding the same
`Var`. -/
theorem C3_witness :
    runCmds [Cmd.pushRegion Region.empty, Cmd.pushBlock BasicBlock.empty]
        (OperationBuilder.default cIntr) = .ok bA ∧
    bA.push_arg = .ok (Var.mk 0, bA2) ∧
    bA2.operands = [Var.mk 0] ∧ (bA2.blockAt 0 0).args = [Var.mk 0] := by
  have h := (C3_push_arg bA (by decide) (by decide) (by decide)
    (by decide)).2 (Var.mk 0) bA2 rfl
  exact ⟨rfl, rfl, (h.2.2.1 rfl).trans rfl, h.2.1.trans rfl⟩

/-- C4: `finish` always succeeds (it can only return `Ok`), and the produced
`Operation` carries exactly the accumulated intrinsic, operand list,
attribute mapping, region list and successor list; over any successful call
sequence from a fresh builder in which pushed regions arrive empty, the
final region count equals the number of `push_region` calls and each
region's block count equals the number of `push_block` calls issued while
that region was active.  (That `finish` consumes the builder — callable at
most once — is Rust's by-value `self` ownership, outside this value-level
embedding.) -/
theorem C4_finish (cmds : List Cmd) (intr : Intrinsic)
    (b2 : OperationBuilder) (hemp : pushesEmptyRegions cmds = true)
    (hrun : runCmds cmds (OperationBuilder.default intr) = .ok b2) :
    b2.finish = .ok (Operation.mk b2.intrinsic b2.operands b2.attrs
      b2.regions b2.successors) ∧
    b2.regions.length = countPushRegion cmds ∧
    blockLens b2 = blockPushCounts cmds (0, 0) [] := by
  have h := (runCmds_effects cmds _ b2 hrun).2
  have hcounts : blockLens b2 = blockPushCounts cmds (0, 0) [] := by
    rw [h]
    exact blockLensAfter_eq_counts cmds _ _ hemp
  refine ⟨rfl, ?_, hcounts⟩
  have hlen : (blockLens b2).length = b2.regions.length := by
    simp [blockLens]
  rw [← hlen, hcounts, blockPushCounts_length]
  simp

/-- C4 (witness): two `push_region` calls with one `push_block` each give an
operation with two regions of one block apiece, and `finish` packages the
builder fields unchanged. -/
theorem C4_witness :
    runCmds c4cmds (OperationBuilder.default cIntr) = .ok c4res ∧
    pushesEmptyRegions c4cmds = true ∧
    (c4res.finish = .ok (Operation.mk c4res.intrinsic c4res.operands
      c4res.attrs c4res.regions c4res.successors) ∧
    c4res.regions.length = countPushRegion c4cmds ∧
    blockLens c4res = blockPushCounts c4cmds (0, 0) []) :=
  ⟨rfl, rfl, C4_finish c4cmds cIntr c4res rfl rfl⟩

/-- C5: over any successful call sequence from a fresh builder that contains
no `set_operands`, the final operand count equals the number of
`push_operand` calls plus the number of `push_arg` calls made while the
active block was its region's entry block (index 0) — the entry-block
arguments minted across all regions. -/
theorem C5_operand_count (cmds : List Cmd) (intr : Intrinsic)
    (b2 : OperationBuilder) (hns : usesSetOperands cmds = false)
    (hrun : runCmds cmds (OperationBuilder.default intr) = .ok b2) :
    b2.operands.length =
      countPushOperand cmds + entryArgCount cmds (0, 0) := by
  have h := runCmds_operands_len cmds _ b2 hrun hns
  simpa [OperationBuilder.default] using h

/-- C5 (witness): one region, one block, one entry-block argument mint and
one explicit operand push give operand count 2 = 1 + 1. -/
theorem C5_witness :
    runCmds c5cmds (OperationBuilder.default cIntr) = .ok c5res ∧
    usesSetOperands c5cmds = false ∧
    c5res.operands.length =
      countPushOperand c5cmds + entryArgCount c5cmds (0, 0) :=
  ⟨rfl, rfl, C5_operand_count c5cmds cIntr c5res rfl rfl⟩

/-- C6: on a builder with an active block, `push_op` succeeds, appending the
completed child `Operation` to the active block's operation list, recording
the `Var` the block mints for it as the builder's (sole) latest result —
replacing whatever `latest` held before — retrievable via `get_latest`; the
operands, attributes, cursor, intrinsic and successors are untouched.  (The
chaining in Rust — `push_op` takes and returns the builder by value — is the
`b2` of the `ok` result.) -/
theorem C6_push_op (b : OperationBuilder) (op : Operation)
    (h1 : 0 < b.cursor.fst) (h2 : 0 < b.cursor.snd)
    (hr : b.cursor.fst - 1 < b.regions.length)
    (hb : b.cursor.snd - 1 <
      (b.regions.get ⟨b.cursor.fst - 1, hr⟩).blocks.length) :
    (∃ b2, b.push_op op = .ok b2) ∧
    (∀ b2 : OperationBuilder, b.push_op op = .ok b2 →
      b2.latest =
        [Var.mk (b.blockAt (b.cursor.fst - 1) (b.cursor.snd - 1)).counter] ∧
      b2.get_latest =
        [Var.mk (b.blockAt (b.cursor.fst - 1) (b.cursor.snd - 1)).counter] ∧
      (b2.blockAt (b.cursor.fst - 1) (b.cursor.snd - 1)).ops =
        (b.blockAt (b.cursor.fst - 1) (b.cursor.snd - 1)).ops ++ [op] ∧
      b2.operands = b.operands ∧ b2.attrs = b.attrs ∧
      b2.cursor = b.cursor ∧ b2.intrinsic = b.intrinsic ∧
      b2.successors = b.successors) := by
  have hsz : b.cursor.snd ≠ 0 := by omega
  have hfz : b.cursor.fst ≠ 0 := by omega
  have he := push_op_eval b op hsz hfz hr hb
  refine ⟨⟨_, he⟩, ?_⟩
  intro b2 hok
  rw [he] at hok
  simp only [BRes.ok.injEq] at hok
  subst hok
  have hcnt : (b.blockAt (b.cursor.fst - 1) (b.cursor.snd - 1)) =
      (b.regions.get ⟨b.cursor.fst - 1, hr⟩).blocks.get
        ⟨b.cursor.snd - 1, hb⟩ := by
    simp only [OperationBuilder.blockAt]
    rw [listGetD_of_lt _ _ _ hr, listGetD_of_lt _ _ _ hb]
  refine ⟨by rw [hcnt], by rw [hcnt]; rfl, ?_, rfl, rfl, rfl, rfl, rfl⟩
  simp only [OperationBuilder.blockAt]
  rw [listGetD_set_self _ _ _ _ hr, listGetD_of_lt _ _ _ hr]
  simp only [region_blocks_mk]
  rw [listGetD_set_self _ _ _ _ hb, listGetD_of_lt _ _ _ hb]
  simp only [basicBlock_ops_mk]

/-- C6 (witness): pushing a finished child operation into `bA`'s entry block
stores it in that block's operation list and records the minted `Var 0` as
the latest result, retrievable via `get_latest`. -/
theorem C6_witness :
    bA.push_op childOp = .ok c6res ∧
    c6res.latest = [Var.mk 0] ∧ c6res.get_latest = [Var.mk 0] ∧
    (c6res.blockAt 0 0).ops = [childOp] := by
  have h := (C6_push_op bA childOp (by decide) (by decide) (by decide)
    (by decide)).2 c6res rfl
  exact ⟨rfl, h.1.trans rfl, h.2.1.trans rfl, h.2.2.1.trans rfl⟩
